import Mathlib

/-!
# Verification of the standings engine of `fishing-db-app`

Shallow embedding of the standings computation in `src/app.py`
(`get_standings`, lines 1072-1174) and of the point-entry upsert
(`save_series_points`, lines 1054-1068 together with the
`series_points` table's UNIQUE constraint, lines 269-284).

Numbers: the `points` column is `REAL`; we model point values as `ℚ`
(exact arithmetic).  Python's `sorted(..., reverse=True)` is a stable
descending sort; it is modelled by `List.insertionSort` with the
relation "key of the left argument is lexicographically ≥ key of the
right argument", which places an earlier element before an equal later
one, exactly as Python's stable sort does.
-/

namespace FishingDB

/-- One row of the `series_points` table as consumed by `get_standings`
(`p["participant_id"]`, `p["series_tournament_id"]`, `p["points"]`). -/
structure SeriesPoint where
  seriesTournamentId : Nat
  participantId : Nat
  categoryId : Nat
  points : ℚ
  notes : Option String := none
deriving DecidableEq

/-- One row of the `series_participants` table as consumed by `get_standings`. -/
structure Participant where
  id : Nat
  boatName : Option String := none
  anglerName : Option String := none
  participantType : String := "boat"
  boatType : Option String := none
deriving DecidableEq

/-- `best_of = series.get("best_of") or 999` (app.py line 1084): Python's
`or` replaces a falsy stored value (`NULL` or `0`) by `999`. -/
def appliedBestOf : Option Int → Int
  | none => 999
  | some b => if b = 0 then 999 else b

/-- `part.get("boat_name") or part.get("angler_name") or "Unknown"`
(app.py line 1150): Python `or` falls through on `None` and on `""`. -/
def pyStrOr (a : Option String) (b : String) : String :=
  match a with
  | none => b
  | some s => if s = "" then b else s

/-- Display name of a participant (app.py line 1150). -/
def displayNameOf (p : Participant) : String :=
  pyStrOr p.boatName (pyStrOr p.anglerName "Unknown")

/-! ## Python dictionaries with `Nat` keys and `ℚ` values

`tourney_totals` is a Python dict built by repeated assignment
`tourney_totals[tid] = ...`: assignment to an existing key replaces its
value in place, assignment to a fresh key appends it; `.values()` and
iteration follow insertion order. -/

/-- `d[k] = v` on a Python dict represented as an insertion-ordered
association list. -/
def dictUpsert (k : Nat) (v : ℚ) : List (Nat × ℚ) → List (Nat × ℚ)
  | [] => [(k, v)]
  | p :: rest => if p.1 = k then (k, v) :: rest else p :: dictUpsert k v rest

/-- `d.get(k, 0)` on a Python dict. -/
def dictGet : List (Nat × ℚ) → Nat → ℚ
  | [], _ => 0
  | p :: rest, k => if p.1 = k then p.2 else dictGet rest k

/-- `d.values()` on a Python dict. -/
def dictValues (d : List (Nat × ℚ)) : List ℚ :=
  d.map Prod.snd

/-! ## Python's stable descending sort

All three sorts in `get_standings` (`sorted(values, reverse=True)`,
`sorted(tourney_ids, key=..., reverse=True)` and
`standings.sort(key=lambda x: (-bos, -agg))`) are stable sorts that are
descending in a lexicographic key of at most two rational components. -/

/-- Descending-lexicographic "may come before": `p` may be placed before
`q` iff the key `p` is lexicographically ≥ the key `q`. -/
def descLe (p q : ℚ × ℚ) : Prop :=
  q.1 < p.1 ∨ (p.1 = q.1 ∧ q.2 ≤ p.2)

instance : DecidableRel descLe := fun p q =>
  inferInstanceAs (Decidable (q.1 < p.1 ∨ (p.1 = q.1 ∧ q.2 ≤ p.2)))

/-- The sort relation induced on elements by a key function. -/
def keyRel {α : Type} (key : α → ℚ × ℚ) : α → α → Prop :=
  fun a b => descLe (key a) (key b)

instance {α : Type} (key : α → ℚ × ℚ) : DecidableRel (keyRel key) := fun a b =>
  inferInstanceAs (Decidable (descLe (key a) (key b)))

theorem descLe_refl (p : ℚ × ℚ) : descLe p p :=
  Or.inr ⟨rfl, le_refl _⟩

theorem descLe_total (p q : ℚ × ℚ) : descLe p q ∨ descLe q p := by
  rcases lt_trichotomy q.1 p.1 with h | h | h
  · exact Or.inl (Or.inl h)
  · rcases le_total q.2 p.2 with h2 | h2
    · exact Or.inl (Or.inr ⟨h.symm, h2⟩)
    · exact Or.inr (Or.inr ⟨h, h2⟩)
  · exact Or.inr (Or.inl h)

theorem descLe_trans {p q r : ℚ × ℚ} (h1 : descLe p q) (h2 : descLe q r) :
    descLe p r := by
  rcases h1 with h1 | ⟨h1, h1'⟩ <;> rcases h2 with h2 | ⟨h2, h2'⟩
  · exact Or.inl (lt_trans h2 h1)
  · exact Or.inl (h2 ▸ h1)
  · exact Or.inl (h1 ▸ h2)
  · exact Or.inr ⟨h1.trans h2, h2'.trans h1'⟩

instance {α : Type} (key : α → ℚ × ℚ) : IsTotal α (keyRel key) :=
  ⟨fun a b => descLe_total (key a) (key b)⟩

instance {α : Type} (key : α → ℚ × ℚ) : IsTrans α (keyRel key) :=
  ⟨fun _ _ _ h1 h2 => descLe_trans h1 h2⟩

/-- Python's `sorted(l, key=key, reverse=True)` / `l.sort(...)`:
the stable descending sort by `key`. -/
def pySortDesc {α : Type} (key : α → ℚ × ℚ) (l : List α) : List α :=
  l.insertionSort (keyRel key)

theorem pySortDesc_perm {α : Type} (key : α → ℚ × ℚ) (l : List α) :
    (pySortDesc key l).Perm l :=
  List.perm_insertionSort _ l

theorem pySortDesc_sorted {α : Type} (key : α → ℚ × ℚ) (l : List α) :
    List.Sorted (keyRel key) (pySortDesc key l) :=
  List.sorted_insertionSort _ l

/-- Inserting `x` keeps, for every key value `q`, the subsequence of
key-`q` elements of `x :: l`: the skipped elements all have a key
strictly above `key x`, so among equal keys `x` lands first. -/
theorem orderedInsert_filter_key {α : Type} (key : α → ℚ × ℚ) (x : α) (l : List α)
    (q : ℚ × ℚ) :
    (List.orderedInsert (keyRel key) x l).filter (fun a => decide (key a = q))
      = (x :: l).filter (fun a => decide (key a = q)) := by
  induction l with
  | nil => rfl
  | cons y ys ih =>
    by_cases hxy : keyRel key x y
    · simp [List.orderedInsert, hxy]
    · have hne : key x ≠ key y := by
        intro h
        apply hxy
        show descLe (key x) (key y)
        rw [h]
        exact descLe_refl _
      by_cases hy : key y = q <;> by_cases hx : key x = q
      · exact absurd (hx.trans hy.symm) hne
      · simp [List.orderedInsert, if_neg hxy, List.filter_cons, hy, hx, ih]
      · simp [List.orderedInsert, if_neg hxy, List.filter_cons, hy, hx, ih]
      · simp [List.orderedInsert, if_neg hxy, List.filter_cons, hy, hx, ih]

/-- Stability of the descending sort: for every key value `q`, the
key-`q` elements appear in the sorted output in their input order. -/
theorem pySortDesc_filter_key {α : Type} (key : α → ℚ × ℚ) (l : List α) (q : ℚ × ℚ) :
    (pySortDesc key l).filter (fun a => decide (key a = q))
      = l.filter (fun a => decide (key a = q)) := by
  induction l with
  | nil => rfl
  | cons x xs ih =>
    show (List.orderedInsert (keyRel key) x (pySortDesc key xs)).filter _ = _
    rw [orderedInsert_filter_key]
    by_cases hx : key x = q <;> simp [List.filter_cons, hx, ih]

/-- Sorting a list whose keys are all equal is the identity (stability
on an all-tied list). -/
theorem pySortDesc_of_const_key {α : Type} (key : α → ℚ × ℚ) (c : ℚ × ℚ) :
    ∀ l : List α, (∀ a ∈ l, key a = c) → pySortDesc key l = l
  | [], _ => rfl
  | x :: xs, h => by
    have hx : key x = c := h x (List.mem_cons_self x xs)
    have ih := pySortDesc_of_const_key key c xs fun a ha => h a (List.mem_cons_of_mem _ ha)
    show List.orderedInsert (keyRel key) x (pySortDesc key xs) = x :: xs
    rw [ih]
    cases xs with
    | nil => rfl
    | cons y ys =>
      have hy : key y = c := h y (List.mem_cons_of_mem _ (List.mem_cons_self y ys))
      have hr : keyRel key x y := by
        show descLe (key x) (key y)
        rw [hx, hy]
        exact descLe_refl c
      simp [List.orderedInsert, hr]

/-- An element below every key of `l` is inserted at the very end. -/
theorem orderedInsert_append_of_not {α : Type} (key : α → ℚ × ℚ) (x : α) :
    ∀ l : List α, (∀ y ∈ l, ¬ keyRel key x y) →
      List.orderedInsert (keyRel key) x l = l ++ [x]
  | [], _ => rfl
  | y :: ys, h => by
    have hy : ¬ keyRel key x y := h y (List.mem_cons_self y ys)
    simp only [List.orderedInsert, if_neg hy, List.cons_append]
    rw [orderedInsert_append_of_not key x ys fun z hz => h z (List.mem_cons_of_mem _ hz)]

/-! ## The standings computation (`get_standings`, app.py 1114-1174) -/

/-- Per-event total: `sum(p["points"] for p in all_points if
p["participant_id"] == pid and p["series_tournament_id"] == tid)`
(app.py lines 1121-1123). -/
def tourneyTotal (allPoints : List SeriesPoint) (pid tid : Nat) : ℚ :=
  ((allPoints.filter fun p =>
      decide (p.participantId = pid) && decide (p.seriesTournamentId = tid)).map
    SeriesPoint.points).sum

/-- The `tourney_totals` dict, built by `tourney_totals[tid] = ...` over
`tourney_ids` in order (app.py lines 1119-1123). -/
def tourneyTotals (allPoints : List SeriesPoint) (pid : Nat)
    (tourneyIds : List Nat) : List (Nat × ℚ) :=
  tourneyIds.foldl (fun d tid => dictUpsert tid (tourneyTotal allPoints pid tid) d) []

/-- `events_fished = sum(1 for tid in tourney_ids if
tourney_totals.get(tid, 0) > 0)` (app.py line 1126). -/
def eventsFishedOf (totals : List (Nat × ℚ)) (tourneyIds : List Nat) : Nat :=
  tourneyIds.countP fun tid => decide (0 < dictGet totals tid)

/-- `sorted_totals = sorted(tourney_totals.values(), reverse=True)`
(app.py line 1129). -/
def sortedTotalsOf (totals : List (Nat × ℚ)) : List ℚ :=
  pySortDesc (fun v => (v, 0)) (dictValues totals)

/-- `sorted_tids = sorted(tourney_ids, key=lambda tid:
tourney_totals.get(tid, 0), reverse=True)` (app.py line 1139). -/
def sortedTidsOf (totals : List (Nat × ℚ)) (tourneyIds : List Nat) : List Nat :=
  pySortDesc (fun tid => (dictGet totals tid, 0)) tourneyIds

/-- `counted_ids = set(sorted_tids[:best_of])` (app.py line 1140); we keep
the list, membership in it is what the code consumes. -/
def countedIdsOf (totals : List (Nat × ℚ)) (tourneyIds : List Nat) (bestOf : Nat) :
    List Nat :=
  (sortedTidsOf totals tourneyIds).take bestOf

/-- `"counted": tid in counted_ids and tourney_totals.get(tid, 0) > 0`
(app.py line 1147). -/
def countedFlag (totals : List (Nat × ℚ)) (tourneyIds : List Nat) (bestOf : Nat)
    (tid : Nat) : Bool :=
  decide (tid ∈ countedIdsOf totals tourneyIds bestOf) && decide (0 < dictGet totals tid)

/-- One entry of the `standings` array (app.py lines 1152-1160);
`perTournament` lists `(tid, points, counted)` in event order. -/
structure StandingRow where
  participantId : Nat
  displayName : String
  perTournament : List (Nat × ℚ × Bool)
  bestOfScore : ℚ
  aggregate : ℚ
  eventsFished : Nat
  countedIds : List Nat
  rank : Nat := 0
deriving DecidableEq

/-- The per-participant computation of `get_standings`
(app.py lines 1116-1160). -/
def computeRow (allPoints : List SeriesPoint) (part : Participant)
    (tourneyIds : List Nat) (bestOf : Nat) (participationPts : ℚ) : StandingRow :=
  let totals := tourneyTotals allPoints part.id tourneyIds
  let fished := eventsFishedOf totals tourneyIds
  let bonus : ℚ := (fished : ℚ) * participationPts
  { participantId := part.id
    displayName := displayNameOf part
    perTournament :=
      tourneyIds.map fun tid => (tid, dictGet totals tid, countedFlag totals tourneyIds bestOf tid)
    bestOfScore := ((sortedTotalsOf totals).take bestOf).sum + bonus
    aggregate := (sortedTotalsOf totals).sum + bonus
    eventsFished := fished
    countedIds := countedIdsOf totals tourneyIds bestOf }

/-- Sort key of `standings.sort(key=lambda x: (-x["best_of_score"],
-x["aggregate"]))` (app.py line 1163): ascending in the negated pair,
i.e. descending-lexicographic in `(best_of_score, aggregate)`. -/
def rankKey (r : StandingRow) : ℚ × ℚ := (r.bestOfScore, r.aggregate)

/-- The final stable sort of the standings (app.py line 1163). -/
def sortStandings (rows : List StandingRow) : List StandingRow :=
  pySortDesc rankKey rows

/-- `for i, s in enumerate(standings): s["rank"] = i + 1`
(app.py lines 1166-1167). -/
def assignRanks : Nat → List StandingRow → List StandingRow
  | _, [] => []
  | i, r :: rest => { r with rank := i + 1 } :: assignRanks (i + 1) rest

/-- The `standings` value returned by `get_standings` (app.py 1114-1174),
as a function of the already-fetched inputs. -/
def standingsList (participants : List Participant) (allPoints : List SeriesPoint)
    (tourneyIds : List Nat) (bestOf : Nat) (participationPts : ℚ) : List StandingRow :=
  assignRanks 0 (sortStandings
    (participants.map fun p => computeRow allPoints p tourneyIds bestOf participationPts))

/-! ## Dictionary lemmas -/

theorem dictUpsert_of_not_mem {k : Nat} {v : ℚ} :
    ∀ {d : List (Nat × ℚ)}, k ∉ d.map Prod.fst → dictUpsert k v d = d ++ [(k, v)]
  | [], _ => rfl
  | p :: rest, h => by
    have hk : p.1 ≠ k := by
      intro he
      exact h (by simp [he.symm])
    simp only [dictUpsert, if_neg hk, List.cons_append]
    rw [dictUpsert_of_not_mem fun hm => h (by simp [hm])]

theorem mem_dictUpsert {p : Nat × ℚ} {k : Nat} {v : ℚ} :
    ∀ {d : List (Nat × ℚ)}, p ∈ dictUpsert k v d → p ∈ d ∨ p = (k, v)
  | [], h => by simpa [dictUpsert] using h
  | q :: rest, h => by
    by_cases hq : q.1 = k
    · simp only [dictUpsert, if_pos hq, List.mem_cons] at h
      rcases h with h | h
      · exact Or.inr h
      · exact Or.inl (List.mem_cons_of_mem _ h)
    · simp only [dictUpsert, if_neg hq, List.mem_cons] at h
      rcases h with h | h
      · exact Or.inl (h ▸ List.mem_cons_self _ _)
      · rcases mem_dictUpsert h with h' | h'
        · exact Or.inl (List.mem_cons_of_mem _ h')
        · exact Or.inr h'

theorem length_dictUpsert_le (k : Nat) (v : ℚ) :
    ∀ d : List (Nat × ℚ), (dictUpsert k v d).length ≤ d.length + 1
  | [] => le_refl _
  | p :: rest => by
    by_cases hp : p.1 = k
    · simp [dictUpsert, if_pos hp]
    · simpa [dictUpsert, if_neg hp] using length_dictUpsert_le k v rest

/-- Generalized shape of the `tourney_totals` build: with distinct fresh
keys, the dict is just the association list in key order. -/
theorem foldl_dictUpsert_eq_append (f : Nat → ℚ) :
    ∀ (tids : List Nat) (d : List (Nat × ℚ)), tids.Nodup →
      (∀ t ∈ tids, t ∉ d.map Prod.fst) →
      tids.foldl (fun d tid => dictUpsert tid (f tid) d) d
        = d ++ tids.map fun t => (t, f t)
  | [], d, _, _ => by simp
  | t :: ts, d, hnd, hfresh => by
    have hstep : dictUpsert t (f t) d = d ++ [(t, f t)] :=
      dictUpsert_of_not_mem (hfresh t (List.mem_cons_self t ts))
    have hnd' : ts.Nodup := (List.nodup_cons.mp hnd).2
    have hfresh' : ∀ s ∈ ts, s ∉ (d ++ [(t, f t)]).map Prod.fst := by
      intro s hs hmem
      rw [List.map_append] at hmem
      rcases List.mem_append.mp hmem with hm | hm
      · exact hfresh s (List.mem_cons_of_mem _ hs) hm
      · have : s = t := by simpa using hm
        exact (List.nodup_cons.mp hnd).1 (this ▸ hs)
    calc (t :: ts).foldl (fun d tid => dictUpsert tid (f tid) d) d
        = ts.foldl (fun d tid => dictUpsert tid (f tid) d) (d ++ [(t, f t)]) := by
          simp [List.foldl_cons, hstep]
      _ = (d ++ [(t, f t)]) ++ ts.map fun s => (s, f s) :=
          foldl_dictUpsert_eq_append f ts (d ++ [(t, f t)]) hnd' hfresh'
      _ = d ++ (t, f t) :: ts.map fun s => (s, f s) := by
          simp [List.append_assoc]

/-- With distinct event ids (SQL primary keys), the `tourney_totals`
dict is the per-event association list in event order. -/
theorem tourneyTotals_eq_map (allPoints : List SeriesPoint) (pid : Nat)
    (tourneyIds : List Nat) (h : tourneyIds.Nodup) :
    tourneyTotals allPoints pid tourneyIds
      = tourneyIds.map fun t => (t, tourneyTotal allPoints pid t) := by
  simpa using foldl_dictUpsert_eq_append (tourneyTotal allPoints pid) tourneyIds [] h
    (by simp)

theorem length_tourneyTotals_le (allPoints : List SeriesPoint) (pid : Nat) :
    ∀ (tourneyIds : List Nat) (d : List (Nat × ℚ)),
      (tourneyIds.foldl (fun d tid => dictUpsert tid (tourneyTotal allPoints pid tid) d) d).length
        ≤ d.length + tourneyIds.length
  | [], d => by simp
  | t :: ts, d => by
    have h1 := length_tourneyTotals_le allPoints pid ts
      (dictUpsert t (tourneyTotal allPoints pid t) d)
    have h2 := length_dictUpsert_le t (tourneyTotal allPoints pid t) d
    simp only [List.foldl_cons, List.length_cons]
    omega

/-- Every value of the `tourney_totals` dict is one of the per-event
totals. -/
theorem mem_values_tourneyTotals (allPoints : List SeriesPoint) (pid : Nat) :
    ∀ (tourneyIds : List Nat) (d : List (Nat × ℚ)) (p : Nat × ℚ),
      p ∈ tourneyIds.foldl (fun d tid => dictUpsert tid (tourneyTotal allPoints pid tid) d) d →
      p ∈ d ∨ ∃ t, p = (t, tourneyTotal allPoints pid t)
  | [], _, p, h => Or.inl h
  | t :: ts, d, p, h => by
    simp only [List.foldl_cons] at h
    rcases mem_values_tourneyTotals allPoints pid ts _ p h with h' | h'
    · rcases mem_dictUpsert h' with h'' | h''
      · exact Or.inl h''
      · exact Or.inr ⟨t, h''⟩
    · exact Or.inr h'

/-- `dict.get(t, 0)` on the association-list form returns the stored
total of the first occurrence of `t`. -/
theorem dictGet_map (f : Nat → ℚ) :
    ∀ (tids : List Nat) (t : Nat), t ∈ tids →
      dictGet (tids.map fun s => (s, f s)) t = f t
  | [], _, h => absurd h (List.not_mem_nil _)
  | s :: ss, t, h => by
    by_cases hs : s = t
    · simp [dictGet, hs]
    · have ht : t ∈ ss := by
        rcases List.mem_cons.mp h with h' | h'
        · exact absurd h'.symm hs
        · exact h'
      simpa [dictGet, hs] using dictGet_map f ss t ht

/-! ## Arithmetic facts about a computed row -/

/-- The aggregate and the best-of score differ exactly by the sum of the
per-event totals cut away by `sorted_totals[:best_of]`: the participation
bonus is added to both and cancels. -/
theorem aggregate_sub_bestOfScore (allPoints : List SeriesPoint) (part : Participant)
    (tourneyIds : List Nat) (bestOf : Nat) (participationPts : ℚ) :
    (computeRow allPoints part tourneyIds bestOf participationPts).aggregate
      - (computeRow allPoints part tourneyIds bestOf participationPts).bestOfScore
      = ((sortedTotalsOf (tourneyTotals allPoints part.id tourneyIds)).drop bestOf).sum := by
  simp only [computeRow]
  have hsum : (sortedTotalsOf (tourneyTotals allPoints part.id tourneyIds)).sum
      = ((sortedTotalsOf (tourneyTotals allPoints part.id tourneyIds)).take bestOf).sum
        + ((sortedTotalsOf (tourneyTotals allPoints part.id tourneyIds)).drop bestOf).sum := by
    conv_lhs =>
      rw [← List.take_append_drop bestOf
        (sortedTotalsOf (tourneyTotals allPoints part.id tourneyIds))]
    rw [List.sum_append]
  rw [hsum]
  ring

/-- Every per-event total is non-negative when every point entry is. -/
theorem tourneyTotal_nonneg {allPoints : List SeriesPoint}
    (hpts : ∀ e ∈ allPoints, 0 ≤ e.points) (pid tid : Nat) :
    0 ≤ tourneyTotal allPoints pid tid := by
  apply List.sum_nonneg
  intro x hx
  simp only [List.mem_map] at hx
  obtain ⟨e, he, rfl⟩ := hx
  exact hpts e (List.mem_of_mem_filter he)

/-- When `best_of` is at least the number of events, the best-of slice
keeps every total, so the best-of score equals the aggregate. -/
theorem bestOfScore_eq_aggregate (allPoints : List SeriesPoint) (part : Participant)
    (tourneyIds : List Nat) (bestOf : Nat) (participationPts : ℚ)
    (h : tourneyIds.length ≤ bestOf) :
    (computeRow allPoints part tourneyIds bestOf participationPts).bestOfScore
      = (computeRow allPoints part tourneyIds bestOf participationPts).aggregate := by
  have hd : (dictValues (tourneyTotals allPoints part.id tourneyIds)).length
      ≤ tourneyIds.length := by
    have hlen := length_tourneyTotals_le allPoints part.id tourneyIds []
    simpa [dictValues, tourneyTotals] using hlen
  have hlenV : (sortedTotalsOf (tourneyTotals allPoints part.id tourneyIds)).length
      ≤ bestOf := by
    have hperm := (pySortDesc_perm (fun v => ((v : ℚ), (0 : ℚ)))
      (dictValues (tourneyTotals allPoints part.id tourneyIds))).length_eq
    calc (sortedTotalsOf (tourneyTotals allPoints part.id tourneyIds)).length
        = (dictValues (tourneyTotals allPoints part.id tourneyIds)).length := hperm
      _ ≤ tourneyIds.length := hd
      _ ≤ bestOf := h
  simp only [computeRow]
  rw [List.take_of_length_le hlenV]

/-! ## Claim theorems -/

/-- C4: for every input and every participant, `aggregate - best_of_score`
equals the sum of the per-event totals excluded by the best-of cut (the
totals not among the top `best_of` after the stable descending sort). -/
theorem C4_aggregate_minus_bestOf (allPoints : List SeriesPoint) (part : Participant)
    (tourneyIds : List Nat) (bestOf : Nat) (participationPts : ℚ) :
    (computeRow allPoints part tourneyIds bestOf participationPts).aggregate
      - (computeRow allPoints part tourneyIds bestOf participationPts).bestOfScore
      = ((sortedTotalsOf (tourneyTotals allPoints part.id tourneyIds)).drop bestOf).sum :=
  aggregate_sub_bestOfScore allPoints part tourneyIds bestOf participationPts

/-- C1: an event is marked counted iff it is among the first `best_of`
event ids of the stable descending sort of the event ids by per-event
total (the sort is descending in the totals and, for every total value,
keeps tied events in input event order), and its total is strictly
positive; a zero-total event in a top slot is not counted. -/
theorem C1_counted_characterization (allPoints : List SeriesPoint) (pid : Nat)
    (tourneyIds : List Nat) (bestOf : Nat) (tid : Nat) :
    List.Sorted
        (fun a b => dictGet (tourneyTotals allPoints pid tourneyIds) b
          ≤ dictGet (tourneyTotals allPoints pid tourneyIds) a)
        (sortedTidsOf (tourneyTotals allPoints pid tourneyIds) tourneyIds) ∧
    (∀ q : ℚ,
      (sortedTidsOf (tourneyTotals allPoints pid tourneyIds) tourneyIds).filter
          (fun t => decide (dictGet (tourneyTotals allPoints pid tourneyIds) t = q))
        = tourneyIds.filter
          (fun t => decide (dictGet (tourneyTotals allPoints pid tourneyIds) t = q))) ∧
    (countedFlag (tourneyTotals allPoints pid tourneyIds) tourneyIds bestOf tid = true ↔
      tid ∈ (sortedTidsOf (tourneyTotals allPoints pid tourneyIds) tourneyIds).take bestOf
        ∧ 0 < dictGet (tourneyTotals allPoints pid tourneyIds) tid) := by
  refine ⟨?_, ?_, ?_⟩
  · apply (pySortDesc_sorted (fun t => (dictGet (tourneyTotals allPoints pid tourneyIds) t, 0))
      tourneyIds).imp
    intro a b hab
    rcases hab with hab | ⟨hab, _⟩
    · exact le_of_lt hab
    · exact le_of_eq hab.symm
  · intro q
    have h := pySortDesc_filter_key
      (fun t => (dictGet (tourneyTotals allPoints pid tourneyIds) t, 0)) tourneyIds (q, 0)
    have hpred : ∀ t : Nat,
        (decide ((dictGet (tourneyTotals allPoints pid tourneyIds) t, (0 : ℚ)) = (q, 0)))
          = decide (dictGet (tourneyTotals allPoints pid tourneyIds) t = q) := by
      intro t
      simp [Prod.ext_iff]
    calc (sortedTidsOf (tourneyTotals allPoints pid tourneyIds) tourneyIds).filter
          (fun t => decide (dictGet (tourneyTotals allPoints pid tourneyIds) t = q))
        = (sortedTidsOf (tourneyTotals allPoints pid tourneyIds) tourneyIds).filter
          (fun t => decide ((dictGet (tourneyTotals allPoints pid tourneyIds) t, (0:ℚ)) = (q, 0))) := by
          apply List.filter_congr
          intro t _
          rw [hpred]
      _ = tourneyIds.filter
          (fun t => decide ((dictGet (tourneyTotals allPoints pid tourneyIds) t, (0:ℚ)) = (q, 0))) := h
      _ = tourneyIds.filter
          (fun t => decide (dictGet (tourneyTotals allPoints pid tourneyIds) t = q)) := by
          apply List.filter_congr
          intro t _
          rw [hpred]
  · simp [countedFlag, countedIdsOf]

/-- C5 counterexample: with a single event whose only entry carries
negative points, `events_fished` is `0` although the per-event total is
`-1`, not `0` — the claimed "iff every total is 0" fails on inputs with
negative points. -/
def negOnlyPoints : List SeriesPoint := [⟨1, 1, 1, -1, none⟩]

/-- The single participant used in the concrete scenarios. -/
def soloBoat : Participant := { id := 1 }

/-- C5 is false as stated: on `negOnlyPoints` the participant has
`events_fished = 0` while the per-event total of event 1 is `-1 ≠ 0`. -/
theorem C5_counterexample :
    (computeRow negOnlyPoints soloBoat [1] 1 0).eventsFished = 0 ∧
    dictGet (tourneyTotals negOnlyPoints 1 [1]) 1 ≠ 0 := by
  norm_num [computeRow, tourneyTotals, tourneyTotal, eventsFishedOf, negOnlyPoints,
    soloBoat, dictUpsert, dictGet, List.filter, List.countP, List.countP.go]

/-- C5 amended: `events_fished` never exceeds the number of events, and it
is `0` iff no per-event total is strictly positive (equivalently, iff
every per-event total is `0`, once all point values are non-negative). -/
theorem C5_events_fished (allPoints : List SeriesPoint) (part : Participant)
    (tourneyIds : List Nat) (bestOf : Nat) (participationPts : ℚ) :
    (computeRow allPoints part tourneyIds bestOf participationPts).eventsFished
      ≤ tourneyIds.length ∧
    ((computeRow allPoints part tourneyIds bestOf participationPts).eventsFished = 0 ↔
      ∀ tid ∈ tourneyIds, dictGet (tourneyTotals allPoints part.id tourneyIds) tid ≤ 0) := by
  simp only [computeRow]
  constructor
  · exact List.countP_le_length _
  · rw [eventsFishedOf, List.countP_eq_zero]
    constructor
    · intro h tid htid
      simpa using h tid htid
    · intro h tid htid
      simpa using h tid htid

/-- Closed instance of the amended C5 via the iff. -/
theorem C5_events_fished_witness :
    (computeRow negOnlyPoints soloBoat [1] 1 0).eventsFished = 0 :=
  (C5_events_fished negOnlyPoints soloBoat [1] 1 0).2.mpr (by
    norm_num [tourneyTotals, tourneyTotal, negOnlyPoints, soloBoat, dictUpsert, dictGet,
      List.filter])

/-- Scenario B point entries: 100 points at event 1, 200 points at event 2. -/
def scenarioBPoints : List SeriesPoint := [⟨1, 1, 1, 100, none⟩, ⟨2, 1, 1, 200, none⟩]

/-- C7: Scenario B (2 events, `best_of = 1`, participation 25, scores 100
and 200): `events_fished = 2`, `best_of_score = 250`, `aggregate = 350`,
event 2 counted, event 1 not counted. -/
theorem C7_scenarioB :
    (computeRow scenarioBPoints soloBoat [1, 2] 1 25).eventsFished = 2 ∧
    (computeRow scenarioBPoints soloBoat [1, 2] 1 25).bestOfScore = 250 ∧
    (computeRow scenarioBPoints soloBoat [1, 2] 1 25).aggregate = 350 ∧
    (computeRow scenarioBPoints soloBoat [1, 2] 1 25).perTournament
      = [(1, 100, false), (2, 200, true)] := by
  norm_num [computeRow, tourneyTotals, tourneyTotal, eventsFishedOf, sortedTotalsOf,
    sortedTidsOf, countedIdsOf, countedFlag, dictUpsert, dictGet, dictValues,
    scenarioBPoints, soloBoat, pySortDesc, keyRel, descLe, List.insertionSort,
    List.orderedInsert, List.filter, List.countP, List.countP.go]

/-- Point entries with a negative adjustment: 5 at event 1, -3 at event 2. -/
def negPoints : List SeriesPoint := [⟨1, 1, 1, 5, none⟩, ⟨2, 1, 1, -3, none⟩]

/-- C3 is false as stated: with `best_of = 1` and totals `5` and `-3`
(negative points are accepted), `best_of_score = 5 > 2 = aggregate`. -/
theorem C3_counterexample :
    (computeRow negPoints soloBoat [1, 2] 1 0).aggregate
      < (computeRow negPoints soloBoat [1, 2] 1 0).bestOfScore := by
  norm_num [computeRow, tourneyTotals, tourneyTotal, eventsFishedOf, sortedTotalsOf,
    sortedTidsOf, countedIdsOf, countedFlag, dictUpsert, dictGet, dictValues,
    negPoints, soloBoat, pySortDesc, keyRel, descLe, List.insertionSort,
    List.orderedInsert, List.filter, List.countP, List.countP.go]

/-- C3 amended: if every point entry is non-negative (the shape the data
model intends), then `best_of_score ≤ aggregate` for every participant. -/
theorem C3_bestOf_le_aggregate (allPoints : List SeriesPoint) (part : Participant)
    (tourneyIds : List Nat) (bestOf : Nat) (participationPts : ℚ)
    (hpts : ∀ e ∈ allPoints, 0 ≤ e.points) :
    (computeRow allPoints part tourneyIds bestOf participationPts).bestOfScore
      ≤ (computeRow allPoints part tourneyIds bestOf participationPts).aggregate := by
  have hdiff := aggregate_sub_bestOfScore allPoints part tourneyIds bestOf participationPts
  have hdrop : 0 ≤ ((sortedTotalsOf (tourneyTotals allPoints part.id tourneyIds)).drop bestOf).sum := by
    apply List.sum_nonneg
    intro x hx
    have hx1 : x ∈ sortedTotalsOf (tourneyTotals allPoints part.id tourneyIds) :=
      List.mem_of_mem_drop hx
    have hx2 : x ∈ dictValues (tourneyTotals allPoints part.id tourneyIds) :=
      (pySortDesc_perm _ _).mem_iff.mp hx1
    simp only [dictValues, List.mem_map] at hx2
    obtain ⟨p, hp, rfl⟩ := hx2
    rcases mem_values_tourneyTotals allPoints part.id tourneyIds [] p hp with h0 | ⟨t, rfl⟩
    · exact absurd h0 (List.not_mem_nil p)
    · exact tourneyTotal_nonneg hpts part.id t
  linarith

/-- Closed instance of the amended C3 at a concrete non-negative input. -/
theorem C3_bestOf_le_aggregate_witness :
    (∀ e ∈ scenarioBPoints, 0 ≤ e.points) ∧
    (computeRow scenarioBPoints soloBoat [1, 2] 1 25).bestOfScore
      ≤ (computeRow scenarioBPoints soloBoat [1, 2] 1 25).aggregate :=
  ⟨by norm_num [scenarioBPoints], C3_bestOf_le_aggregate scenarioBPoints soloBoat [1, 2] 1 25
    (by norm_num [scenarioBPoints])⟩

/-! ## Ranking lemmas -/

theorem assignRanks_length : ∀ (i : Nat) (l : List StandingRow),
    (assignRanks i l).length = l.length
  | _, [] => rfl
  | i, _ :: rest => by simp [assignRanks, assignRanks_length (i + 1) rest]

/-- The ranks written by `for i, s in enumerate(standings): s["rank"] = i+1`
are the successive positions shifted by the starting index. -/
theorem assignRanks_map_rank : ∀ (i : Nat) (l : List StandingRow),
    (assignRanks i l).map StandingRow.rank = (List.range l.length).map fun j => j + i + 1
  | _, [] => rfl
  | i, r :: rest => by
    simp only [assignRanks, List.map_cons, List.length_cons, List.range_succ_eq_map,
      List.map_map]
    refine congrArg₂ List.cons (by omega) ?_
    rw [assignRanks_map_rank (i + 1) rest]
    apply List.map_congr_left
    intro j _
    simp [Function.comp, Nat.succ_eq_add_one]
    omega

/-- Assigning ranks changes no other field of a row. -/
theorem assignRanks_map_fields : ∀ (i : Nat) (l : List StandingRow),
    (assignRanks i l).map
        (fun r => (r.bestOfScore, r.aggregate, r.eventsFished, r.perTournament, r.countedIds))
      = l.map
        (fun r => (r.bestOfScore, r.aggregate, r.eventsFished, r.perTournament, r.countedIds))
  | _, [] => rfl
  | i, r :: rest => by
    simp only [assignRanks, List.map_cons]
    rw [assignRanks_map_fields (i + 1) rest]

/-- C2: the standings are the participant rows stably sorted by
`best_of_score` descending then `aggregate` descending (a permutation of
the rows, sorted in that order, with rows tied on both keys kept in
input order), and the assigned ranks are exactly the 1-based positions
`1, 2, 3, ...` — tied rows get consecutive distinct ranks. -/
theorem C2_ranking (participants : List Participant) (allPoints : List SeriesPoint)
    (tourneyIds : List Nat) (bestOf : Nat) (participationPts : ℚ) :
    (sortStandings (participants.map fun p =>
        computeRow allPoints p tourneyIds bestOf participationPts)).Perm
      (participants.map fun p => computeRow allPoints p tourneyIds bestOf participationPts) ∧
    List.Sorted
      (fun a b : StandingRow => b.bestOfScore < a.bestOfScore ∨
        (a.bestOfScore = b.bestOfScore ∧ b.aggregate ≤ a.aggregate))
      (sortStandings (participants.map fun p =>
        computeRow allPoints p tourneyIds bestOf participationPts)) ∧
    (∀ q : ℚ × ℚ,
      (sortStandings (participants.map fun p =>
          computeRow allPoints p tourneyIds bestOf participationPts)).filter
          (fun r => decide (rankKey r = q))
        = (participants.map fun p =>
            computeRow allPoints p tourneyIds bestOf participationPts).filter
          (fun r => decide (rankKey r = q))) ∧
    (standingsList participants allPoints tourneyIds bestOf participationPts).map
        StandingRow.rank
      = (List.range participants.length).map (· + 1) := by
  refine ⟨pySortDesc_perm rankKey _, ?_, fun q => pySortDesc_filter_key rankKey _ q, ?_⟩
  · exact pySortDesc_sorted rankKey _
  · rw [standingsList, assignRanks_map_rank]
    have hlen : (sortStandings (participants.map fun p =>
        computeRow allPoints p tourneyIds bestOf participationPts)).length
        = participants.length := by
      rw [sortStandings, (pySortDesc_perm rankKey _).length_eq, List.length_map]
    rw [hlen]

/-- A row computed over an empty event list has all-zero totals. -/
theorem computeRow_nil_events (allPoints : List SeriesPoint) (part : Participant)
    (bestOf : Nat) (participationPts : ℚ) :
    computeRow allPoints part [] bestOf participationPts
      = { participantId := part.id, displayName := displayNameOf part,
          perTournament := [], bestOfScore := 0, aggregate := 0,
          eventsFished := 0, countedIds := [] } := by
  simp [computeRow, tourneyTotals, eventsFishedOf, sortedTotalsOf, sortedTidsOf,
    countedIdsOf, dictValues, pySortDesc, List.insertionSort]

/-- C8: an empty participant list yields an empty standings list, and an
empty event list yields one all-zero row per participant — in both cases
a valid result, never an error. -/
theorem C8_empty_inputs (allPoints : List SeriesPoint) (tourneyIds : List Nat)
    (bestOf : Nat) (participationPts : ℚ) (participants : List Participant) :
    standingsList [] allPoints tourneyIds bestOf participationPts = [] ∧
    (standingsList participants allPoints [] bestOf participationPts).map
        (fun r => (r.bestOfScore, r.aggregate, r.eventsFished, r.perTournament, r.countedIds))
      = participants.map
        (fun _ => ((0 : ℚ), (0 : ℚ), 0, ([] : List (Nat × ℚ × Bool)), ([] : List Nat))) := by
  constructor
  · rfl
  · rw [standingsList, assignRanks_map_fields]
    have hsorted : sortStandings (participants.map fun p =>
        computeRow allPoints p [] bestOf participationPts)
        = participants.map fun p => computeRow allPoints p [] bestOf participationPts := by
      apply pySortDesc_of_const_key rankKey ((0 : ℚ), (0 : ℚ))
      intro r hr
      simp only [List.mem_map] at hr
      obtain ⟨p, _, rfl⟩ := hr
      rw [computeRow_nil_events]
      rfl
    rw [sortStandings] at hsorted
    rw [sortStandings, hsorted, List.map_map]
    apply List.map_congr_left
    intro p _
    simp [Function.comp, computeRow_nil_events]

/-! ## The `or 999` fallback (C6, C10) -/

/-- Counterexample input for C6: a single entry of `-5` points at event
id `0`, in a series of 1000 events. -/
def unsetBestOfPoints : List SeriesPoint := [⟨0, 1, 1, -5, none⟩]

theorem unsetBestOf_total (t : Nat) :
    tourneyTotal unsetBestOfPoints 1 t = if t = 0 then (-5 : ℚ) else 0 := by
  by_cases h : t = 0
  · subst h
    norm_num [tourneyTotal, unsetBestOfPoints, List.filter]
  · have h' : (0 : Nat) ≠ t := fun he => h he.symm
    rw [if_neg h]
    simp [tourneyTotal, unsetBestOfPoints, List.filter, h']

theorem unsetBestOf_values :
    dictValues (tourneyTotals unsetBestOfPoints 1 (List.range 1000))
      = (-5 : ℚ) :: List.replicate 999 0 := by
  rw [tourneyTotals_eq_map _ _ _ (List.nodup_range 1000)]
  rw [dictValues, List.map_map]
  rw [show (1000 : Nat) = 999 + 1 from rfl, List.range_succ_eq_map, List.map_cons,
    List.map_map]
  refine congrArg₂ List.cons ?_ ?_
  · show tourneyTotal unsetBestOfPoints 1 0 = -5
    rw [unsetBestOf_total]
    norm_num
  · refine List.eq_replicate_iff.mpr ⟨by rw [List.length_map, List.length_range], ?_⟩
    intro b hb
    simp only [List.mem_map] at hb
    obtain ⟨j, _, rfl⟩ := hb
    show tourneyTotal unsetBestOfPoints 1 (Nat.succ j) = 0
    rw [unsetBestOf_total]
    simp

theorem unsetBestOf_sortedTotals :
    sortedTotalsOf (tourneyTotals unsetBestOfPoints 1 (List.range 1000))
      = List.replicate 999 (0 : ℚ) ++ [(-5 : ℚ)] := by
  rw [sortedTotalsOf, unsetBestOf_values]
  show List.orderedInsert (keyRel fun v => ((v : ℚ), (0 : ℚ))) (-5)
      (pySortDesc (fun v => ((v : ℚ), (0 : ℚ))) (List.replicate 999 0)) = _
  have hconst : ∀ a ∈ List.replicate 999 (0 : ℚ), ((a, (0 : ℚ)) : ℚ × ℚ) = (0, 0) := by
    intro a ha
    rw [List.eq_of_mem_replicate ha]
  rw [pySortDesc_of_const_key (fun v => ((v : ℚ), (0 : ℚ))) ((0 : ℚ), (0 : ℚ)) _ hconst]
  apply orderedInsert_append_of_not
  intro y hy
  rw [List.eq_of_mem_replicate hy]
  show ¬ descLe ((-5 : ℚ), 0) (0, 0)
  rw [descLe]
  push_neg
  norm_num

/-- C6 is false as stated: with no configured best-of, the applied value
is the constant `999`, which on a series of 1000 events does NOT behave
as "larger than the number of events" — the best-of score with the
fallback (`0`) differs from the best-of score when every event counts
(`-5`). -/
theorem C6_counterexample :
    (computeRow unsetBestOfPoints soloBoat (List.range 1000)
        (appliedBestOf none).toNat 0).bestOfScore
      ≠ (computeRow unsetBestOfPoints soloBoat (List.range 1000)
        ((List.range 1000).length + 1) 0).bestOfScore := by
  have h1 : soloBoat.id = 1 := rfl
  have h999 : (appliedBestOf none).toNat = 999 := rfl
  simp only [computeRow, h1, h999, List.length_range, mul_zero, add_zero]
  rw [unsetBestOf_sortedTotals]
  have htake : (List.replicate 999 (0 : ℚ) ++ [(-5 : ℚ)]).take 999
      = List.replicate 999 0 :=
    List.take_left' (by rw [List.length_replicate])
  have htake2 : (List.replicate 999 (0 : ℚ) ++ [(-5 : ℚ)]).take (1000 + 1)
      = List.replicate 999 0 ++ [(-5 : ℚ)] := by
    apply List.take_of_length_le
    rw [List.length_append, List.length_replicate, List.length_cons, List.length_nil]
    norm_num
  rw [htake, htake2, List.sum_append, List.sum_replicate]
  norm_num

/-- C6 amended: the fallback applied best-of is the constant `999`; on a
series with at most 999 events it does behave exactly as a best-of
larger than the number of events (the whole row agrees). -/
theorem C6_fallback_counts_all (allPoints : List SeriesPoint) (part : Participant)
    (tourneyIds : List Nat) (participationPts : ℚ) (h : tourneyIds.length ≤ 999) :
    computeRow allPoints part tourneyIds (appliedBestOf none).toNat participationPts
      = computeRow allPoints part tourneyIds (tourneyIds.length + 1) participationPts := by
  have h999 : (appliedBestOf none).toNat = 999 := rfl
  have hd : (dictValues (tourneyTotals allPoints part.id tourneyIds)).length
      ≤ tourneyIds.length := by
    have hlen := length_tourneyTotals_le allPoints part.id tourneyIds []
    simpa [dictValues, tourneyTotals] using hlen
  have hlenV : (sortedTotalsOf (tourneyTotals allPoints part.id tourneyIds)).length
      ≤ tourneyIds.length := by
    rw [sortedTotalsOf, (pySortDesc_perm _ _).length_eq]
    exact hd
  have hlenT : (sortedTidsOf (tourneyTotals allPoints part.id tourneyIds) tourneyIds).length
      = tourneyIds.length := by
    rw [sortedTidsOf, (pySortDesc_perm _ _).length_eq]
  rw [h999]
  simp only [computeRow, countedFlag, countedIdsOf]
  simp only [List.take_of_length_le (hlenV.trans h),
    List.take_of_length_le (hlenV.trans (Nat.le_succ _)),
    List.take_of_length_le (le_of_eq_of_le hlenT h),
    List.take_of_length_le (le_of_eq_of_le hlenT (Nat.le_succ _))]

/-- Closed instance of the amended C6. -/
theorem C6_fallback_counts_all_witness :
    ([1, 2].length ≤ 999) ∧
    computeRow scenarioBPoints soloBoat [1, 2] (appliedBestOf none).toNat 25
      = computeRow scenarioBPoints soloBoat [1, 2] ([1, 2].length + 1) 25 :=
  ⟨by norm_num, C6_fallback_counts_all scenarioBPoints soloBoat [1, 2] 25 (by norm_num)⟩

/-- C10: a stored `best_of = 0` is falsy in Python, so `or 999` applies
exactly as for an unset best-of; for a series with at most 999 events
every event total is then summed into `best_of_score` (it equals the
aggregate) — `best_of = 0` never means that zero events count. -/
theorem C10_zero_best_of (allPoints : List SeriesPoint) (part : Participant)
    (tourneyIds : List Nat) (participationPts : ℚ) (h : tourneyIds.length ≤ 999) :
    appliedBestOf (some 0) = 999 ∧ appliedBestOf (some 0) = appliedBestOf none ∧
    (computeRow allPoints part tourneyIds (appliedBestOf (some 0)).toNat
        participationPts).bestOfScore
      = (computeRow allPoints part tourneyIds (appliedBestOf (some 0)).toNat
        participationPts).aggregate := by
  refine ⟨rfl, rfl, ?_⟩
  apply bestOfScore_eq_aggregate
  rw [show (appliedBestOf (some 0)).toNat = 999 from rfl]
  exact h

/-- Closed instance of C10. -/
theorem C10_zero_best_of_witness :
    ([1, 2].length ≤ 999) ∧
    (computeRow scenarioBPoints soloBoat [1, 2] (appliedBestOf (some 0)).toNat
        25).bestOfScore
      = (computeRow scenarioBPoints soloBoat [1, 2] (appliedBestOf (some 0)).toNat
        25).aggregate :=
  ⟨by norm_num, (C10_zero_best_of scenarioBPoints soloBoat [1, 2] 25 (by norm_num)).2.2⟩

/-! ## Point writes (`save_series_points`, app.py 1054-1068) -/

/-- A stored row of the `series_points` table (app.py lines 269-284). -/
structure StoredPoint where
  seriesId : Nat
  seriesTournamentId : Nat
  participantId : Nat
  categoryId : Nat
  points : ℚ
  notes : Option String
deriving DecidableEq

/-- The `UNIQUE(series_tournament_id, participant_id, category_id)` key
of a stored row (app.py line 282). -/
def pointKey (r : StoredPoint) : Nat × Nat × Nat :=
  (r.seriesTournamentId, r.participantId, r.categoryId)

/-- The conflict key of an incoming `SeriesPoint` payload. -/
def entryKey (e : SeriesPoint) : Nat × Nat × Nat :=
  (e.seriesTournamentId, e.participantId, e.categoryId)

/-- One `INSERT ... ON CONFLICT(series_tournament_id, participant_id,
category_id) DO UPDATE SET points=excluded.points, notes=excluded.notes`
(app.py lines 1060-1065): if a row with the key exists it is updated in
place (only `points` and `notes` change), otherwise a new row is
appended. -/
def upsertPoint (sid : Nat) (e : SeriesPoint) : List StoredPoint → List StoredPoint
  | [] => [{ seriesId := sid, seriesTournamentId := e.seriesTournamentId,
             participantId := e.participantId, categoryId := e.categoryId,
             points := e.points, notes := e.notes }]
  | r :: rest =>
    if pointKey r = entryKey e then
      { r with points := e.points, notes := e.notes } :: rest
    else r :: upsertPoint sid e rest

/-- The loop of `save_series_points` over the posted payload list
(app.py lines 1059-1065). -/
def saveSeriesPoints (db : List StoredPoint) (sid : Nat) (es : List SeriesPoint) :
    List StoredPoint :=
  es.foldl (fun d e => upsertPoint sid e d) db

/-- The table invariant: pairwise distinct conflict keys. -/
def UniqueKeys (db : List StoredPoint) : Prop :=
  db.Pairwise fun a b => pointKey a ≠ pointKey b

theorem pointKey_update (r : StoredPoint) (p : ℚ) (n : Option String) :
    pointKey { r with points := p, notes := n } = pointKey r :=
  rfl

/-- The key of any row of the upserted store is an old key or the new key. -/
theorem pointKey_mem_upsertPoint (sid : Nat) (e : SeriesPoint) :
    ∀ (db : List StoredPoint), ∀ r ∈ upsertPoint sid e db,
      pointKey r ∈ db.map pointKey ∨ pointKey r = entryKey e
  | [], r, hr => by
    simp only [upsertPoint, List.mem_singleton] at hr
    subst hr
    exact Or.inr rfl
  | s :: rest, r, hr => by
    by_cases hk : pointKey s = entryKey e
    · rw [upsertPoint, if_pos hk] at hr
      rcases List.mem_cons.mp hr with hr | hr
      · subst hr
        exact Or.inr (by rw [pointKey_update, hk])
      · exact Or.inl (List.mem_cons_of_mem _ (List.mem_map_of_mem _ hr))
    · rw [upsertPoint, if_neg hk] at hr
      rcases List.mem_cons.mp hr with hr | hr
      · subst hr
        exact Or.inl (by simp)
      · rcases pointKey_mem_upsertPoint sid e rest r hr with h' | h'
        · exact Or.inl (by simp only [List.map_cons, List.mem_cons]; exact Or.inr h')
        · exact Or.inr h'

/-- A single upsert preserves key uniqueness. -/
theorem uniqueKeys_upsertPoint (sid : Nat) (e : SeriesPoint) :
    ∀ db : List StoredPoint, UniqueKeys db → UniqueKeys (upsertPoint sid e db)
  | [], _ => List.pairwise_singleton _ _
  | r :: rest, hdb => by
    rcases List.pairwise_cons.mp hdb with ⟨h1, h2⟩
    by_cases hk : pointKey r = entryKey e
    · rw [upsertPoint, if_pos hk]
      exact List.pairwise_cons.mpr ⟨fun b hb => by rw [pointKey_update]; exact h1 b hb, h2⟩
    · rw [upsertPoint, if_neg hk]
      refine List.pairwise_cons.mpr ⟨?_, uniqueKeys_upsertPoint sid e rest h2⟩
      intro b hb
      rcases pointKey_mem_upsertPoint sid e rest b hb with h' | h'
      · simp only [List.mem_map] at h'
        obtain ⟨b', hb', hbk⟩ := h'
        rw [← hbk]
        exact h1 b' hb'
      · rw [h']
        exact hk

/-- The whole `save_series_points` loop preserves key uniqueness. -/
theorem uniqueKeys_saveSeriesPoints (sid : Nat) :
    ∀ (es : List SeriesPoint) (db : List StoredPoint),
      UniqueKeys db → UniqueKeys (saveSeriesPoints db sid es)
  | [], _, hdb => hdb
  | e :: es, db, hdb =>
    uniqueKeys_saveSeriesPoints sid es (upsertPoint sid e db)
      (uniqueKeys_upsertPoint sid e db hdb)

/-- On a key conflict the write leaves the key multiset untouched: no
second row for the key is ever created. -/
theorem upsertPoint_keys_of_conflict (sid : Nat) (e : SeriesPoint) :
    ∀ db : List StoredPoint, (∃ r ∈ db, pointKey r = entryKey e) →
      (upsertPoint sid e db).map pointKey = db.map pointKey
  | [], h => absurd h (by simp)
  | r :: rest, h => by
    by_cases hk : pointKey r = entryKey e
    · rw [upsertPoint, if_pos hk, List.map_cons, List.map_cons, pointKey_update]
    · rw [upsertPoint, if_neg hk, List.map_cons, List.map_cons]
      refine congrArg _ (upsertPoint_keys_of_conflict sid e rest ?_)
      obtain ⟨r', hr', hrk⟩ := h
      rcases List.mem_cons.mp hr' with h' | h'
      · exact absurd (h' ▸ hrk) hk
      · exact ⟨r', h', hrk⟩

/-- After an upsert, any row carrying the written key holds the new
points and notes (uniqueness of keys makes that row unique). -/
theorem upsertPoint_points_notes (sid : Nat) (e : SeriesPoint) :
    ∀ db : List StoredPoint, UniqueKeys db →
      ∀ r ∈ upsertPoint sid e db, pointKey r = entryKey e →
        r.points = e.points ∧ r.notes = e.notes
  | [], _, r, hr, _ => by
    simp only [upsertPoint, List.mem_singleton] at hr
    subst hr
    exact ⟨rfl, rfl⟩
  | s :: rest, hdb, r, hr, hrk => by
    rcases List.pairwise_cons.mp hdb with ⟨h1, h2⟩
    by_cases hk : pointKey s = entryKey e
    · rw [upsertPoint, if_pos hk] at hr
      rcases List.mem_cons.mp hr with hr | hr
      · subst hr
        exact ⟨rfl, rfl⟩
      · exact absurd (hrk.trans hk.symm).symm (h1 r hr)
    · rw [upsertPoint, if_neg hk] at hr
      rcases List.mem_cons.mp hr with hr | hr
      · subst hr
        exact absurd hrk hk
      · exact upsertPoint_points_notes sid e rest h2 r hr hrk

/-- C9: writing a point entry whose key already has a row replaces that
row's points and note in place and never creates a second row for the
key; after any sequence of writes on a store with unique keys, at most
one row exists per (event, participant, category). -/
theorem C9_upsert_invariant (db : List StoredPoint) (sid : Nat)
    (es : List SeriesPoint) (e : SeriesPoint) (hdb : UniqueKeys db) :
    UniqueKeys (saveSeriesPoints db sid es) ∧
    ((∃ r ∈ db, pointKey r = entryKey e) →
      (upsertPoint sid e db).map pointKey = db.map pointKey) ∧
    (∀ r ∈ upsertPoint sid e db, pointKey r = entryKey e →
      r.points = e.points ∧ r.notes = e.notes) :=
  ⟨uniqueKeys_saveSeriesPoints sid es db hdb,
   upsertPoint_keys_of_conflict sid e db,
   upsertPoint_points_notes sid e db hdb⟩

/-- An existing stored row used by the C9 witness. -/
def storedA : StoredPoint :=
  { seriesId := 1, seriesTournamentId := 1, participantId := 1, categoryId := 1,
    points := 10, notes := none }

/-- An incoming write for the same (event, participant, category) key. -/
def entryA : SeriesPoint :=
  { seriesTournamentId := 1, participantId := 1, categoryId := 1,
    points := 20, notes := some "corrected" }

/-- Closed instance of C9: two successive writes of the same key on a
one-row store keep the keys unique and unchanged. -/
theorem C9_upsert_invariant_witness :
    UniqueKeys (saveSeriesPoints [storedA] 1 [entryA, entryA]) ∧
    (upsertPoint 1 entryA [storedA]).map pointKey = [storedA].map pointKey :=
  ⟨(C9_upsert_invariant [storedA] 1 [entryA, entryA] entryA
      (List.pairwise_singleton _ _)).1,
   (C9_upsert_invariant [storedA] 1 [entryA, entryA] entryA
      (List.pairwise_singleton _ _)).2.1
      ⟨storedA, List.mem_singleton_self _, rfl⟩⟩

end FishingDB
